import Mathlib

/-!
Verification of the cipher command interpreter in `src/main.py`.

Modelling conventions of the shallow embedding:
* Python strings are modelled as `List Char` (`Str`).  The program's scope is
  the ASCII fragment (spec section 1 excludes internationalization beyond
  ASCII-letter case handling), so the Python character predicates
  `isupper` / `islower` / `isalpha` and the case maps `lower` / `upper` are
  modelled by their ASCII restrictions `pyIsUpper`, `pyIsLower`, `pyIsAlpha`,
  `pyToLower`, `pyToUpper`.
* Python exceptions (the `IndexError` that `target_alphabet[pos]` and
  `source_alphabet[pos]` can raise, which propagates out of the command
  handlers) are modelled by `Option`: `none` is an uncaught exception.
* Console output is modelled as a flat character stream: `print(x)` appends
  `x ++ ['\n']`, `print(x, end="")` appends `x`.
* `int(...)` is modelled by `pyInt`: optional surrounding whitespace, an
  optional sign, then base-10 digits.
* Python `%` on integers coincides with `Int.emod` for a positive modulus,
  so `% 26` is modelled by `Int.emod`.
-/

abbrev Str := List Char

/-- Whitespace characters recognised by Python's `str.strip` and `str.split`
(ASCII fragment). -/
def pyIsSpace (c : Char) : Bool :=
  c = ' ' || c = '\t' || c = '\n' || c = '\r' || c = '\x0b' || c = '\x0c'

/-- Python `str.strip()`: drop leading and trailing whitespace. -/
def pyStrip (s : Str) : Str :=
  ((s.dropWhile pyIsSpace).reverse.dropWhile pyIsSpace).reverse

/-- The loop of Python `str.split()`: accumulate the current word (reversed)
and flush it at each whitespace run and at the end. -/
def pySplitAux : Str → Str → List Str
  | [], acc => if acc = [] then [] else [acc.reverse]
  | c :: cs, acc =>
    if pyIsSpace c then
      if acc = [] then pySplitAux cs [] else acc.reverse :: pySplitAux cs []
    else pySplitAux cs (c :: acc)

/-- Python `str.split()` with no arguments: split on runs of whitespace,
discarding empty pieces. -/
def pySplit (s : Str) : List Str := pySplitAux s []

/-- Python `str.split(maxsplit=1)`: at most one split, the remainder keeps its
trailing (but not leading) whitespace. -/
def pySplitMax1 (s : Str) : List Str :=
  match s.dropWhile pyIsSpace with
  | [] => []
  | c :: cs =>
    let w := c :: cs.takeWhile (fun x => !pyIsSpace x)
    let r := (cs.dropWhile (fun x => !pyIsSpace x)).dropWhile pyIsSpace
    if r = [] then [w] else [w, r]

/-- Python `" ".join(xs)`. -/
def joinSpace (xs : List Str) : Str := List.intercalate [' '] xs

/-- Model of `CommandProcessor.parse_quoted_string`: match the regex `^"([^"]*)"`
against `text.strip()`; on success return the quoted content together with
`text[match.end():].strip()` (note: the slice is taken from the original,
unstripped `text`, exactly as in the source); otherwise `(None, text)`. -/
def parse_quoted_string (text : Str) : Option Str × Str :=
  match pyStrip text with
  | [] => (none, text)
  | c :: rest =>
    if c = '\"' then
      let content := rest.takeWhile (fun x => x != '\"')
      if content.length < rest.length then
        (some content, pyStrip (text.drop (content.length + 2)))
      else (none, text)
    else (none, text)

/-- ASCII decimal digit test. -/
def isDigitChar (c : Char) : Bool := 48 ≤ c.toNat && c.toNat ≤ 57

/-- Numeric value of a digit string. -/
def digitsVal (ds : Str) : Nat := ds.foldl (fun a c => a * 10 + (c.toNat - 48)) 0

/-- Python `int(...)` on a stripped string: an optional sign followed by a
nonempty run of decimal digits; anything else raises `ValueError` (`none`). -/
def pyIntCore : Str → Option Int
  | [] => none
  | c :: rest =>
    if c = '-' then
      if rest = [] then none
      else if rest.all isDigitChar then some (-(digitsVal rest : Int)) else none
    else if c = '+' then
      if rest = [] then none
      else if rest.all isDigitChar then some ((digitsVal rest : Int)) else none
    else if (c :: rest).all isDigitChar then some ((digitsVal (c :: rest) : Int))
    else none

/-- Python `int(s)` for a string `s` (surrounding whitespace is ignored). -/
def pyInt (s : Str) : Option Int := pyIntCore (pyStrip s)

/-- Python `str.isupper` for a single character (ASCII fragment). -/
def pyIsUpper (c : Char) : Bool := 65 ≤ c.toNat && c.toNat ≤ 90

/-- Python `str.islower` for a single character (ASCII fragment). -/
def pyIsLower (c : Char) : Bool := 97 ≤ c.toNat && c.toNat ≤ 122

/-- Python `str.isalpha` for a single character (ASCII fragment). -/
def pyIsAlpha (c : Char) : Bool := pyIsUpper c || pyIsLower c

/-- Python `str.lower` for a single character (ASCII fragment). -/
def pyToLower (c : Char) : Char :=
  if pyIsUpper c then Char.ofNat (c.toNat + 32) else c

/-- Python `str.upper` for a single character (ASCII fragment). -/
def pyToUpper (c : Char) : Char :=
  if pyIsLower c then Char.ofNat (c.toNat - 32) else c

/-- Python `str.lower` on a whole string. -/
def pyLowerStr (s : Str) : Str := s.map pyToLower

/-- One character of `SubstitutionCipher.encrypt`: if the lower-cased
character occurs in the source alphabet, look up the character at the same
position of the target alphabet (this subscript can raise `IndexError`,
modelled by `none`), restoring upper case; otherwise pass through. -/
def substEncryptChar (src tgt : Str) (c : Char) : Option Char :=
  if pyToLower c ∈ src then
    match tgt[src.indexOf (pyToLower c)]? with
    | some e => some (if pyIsUpper c then pyToUpper e else e)
    | none => none
  else some c

/-- One character of `SubstitutionCipher.decrypt`: the mirror lookup from the
target alphabet back to the source alphabet. -/
def substDecryptChar (src tgt : Str) (c : Char) : Option Char :=
  if pyToLower c ∈ tgt then
    match src[tgt.indexOf (pyToLower c)]? with
    | some d => some (if pyIsUpper c then pyToUpper d else d)
    | none => none
  else some c

/-- Model of `SubstitutionCipher.encrypt` over a whole string. -/
def substEncrypt (src tgt : Str) : Str → Option Str
  | [] => some []
  | c :: cs =>
    match substEncryptChar src tgt c, substEncrypt src tgt cs with
    | some e, some es => some (e :: es)
    | _, _ => none

/-- Model of `SubstitutionCipher.decrypt` over a whole string. -/
def substDecrypt (src tgt : Str) : Str → Option Str
  | [] => some []
  | c :: cs =>
    match substDecryptChar src tgt c, substDecrypt src tgt cs with
    | some d, some ds => some (d :: ds)
    | _, _ => none

/-- One character of `ShiftCipher.encrypt`:
`chr((ord(char) - base + shift) % 26 + base)` on letters, identity
otherwise. -/
def shiftEncryptChar (v : Int) (c : Char) : Char :=
  if pyIsAlpha c then
    let base : Int := if pyIsUpper c then 65 else 97
    Char.ofNat ((((c.toNat : Int) - base + v) % 26 + base).toNat)
  else c

/-- One character of `ShiftCipher.decrypt`:
`chr((ord(char) - base - shift) % 26 + base)` on letters, identity
otherwise. -/
def shiftDecryptChar (v : Int) (c : Char) : Char :=
  if pyIsAlpha c then
    let base : Int := if pyIsUpper c then 65 else 97
    Char.ofNat ((((c.toNat : Int) - base - v) % 26 + base).toNat)
  else c

/-- Model of `ShiftCipher.encrypt` over a whole string. -/
def shiftEncrypt (v : Int) (s : Str) : Str := s.map (shiftEncryptChar v)

/-- Model of `ShiftCipher.decrypt` over a whole string. -/
def shiftDecrypt (v : Int) (s : Str) : Str := s.map (shiftDecryptChar v)

/-- The per-record cipher configuration: the two concrete subclasses of
`EncryptedText` and their parameters. -/
inductive CipherParams where
  | substitution (source_alphabet target_alphabet : Str)
  | shift (shift_value : Int)
deriving DecidableEq

/-- A stored record: the common `EncryptedText` fields plus the variant
parameters and the eagerly computed `encrypted_text`. -/
structure Record where
  text : Str
  owner_name : Str
  date : Str
  params : CipherParams
  encrypted_text : Str
deriving DecidableEq

/-- Model of `SubstitutionCipher.__init__`: lower-case both alphabets, then eagerly
compute `encrypted_text = self.encrypt()`; an `IndexError` during that
computation propagates (`none`). -/
def mkSubstitutionCipher (text owner date sourceAlpha targetAlpha : Str) :
    Option Record :=
  let src := pyLowerStr sourceAlpha
  let tgt := pyLowerStr targetAlpha
  match substEncrypt src tgt text with
  | some enc => some ⟨text, owner, date, .substitution src tgt, enc⟩
  | none => none

/-- Model of `ShiftCipher.__init__`: eagerly compute `encrypted_text` (never fails). -/
def mkShiftCipher (text owner date : Str) (v : Int) : Record :=
  ⟨text, owner, date, .shift v, shiftEncrypt v text⟩

/-- The method `decrypt()` applied to the cached `encrypted_text` of a record. -/
def decryptR (r : Record) : Option Str :=
  match r.params with
  | .substitution src tgt => substDecrypt src tgt r.encrypted_text
  | .shift v => some (shiftDecrypt v r.encrypted_text)

/-- The Python class name used by `get_info`. -/
def className (r : Record) : Str :=
  match r.params with
  | .substitution _ _ => "SubstitutionCipher".data
  | .shift _ => "ShiftCipher".data

/-- Decimal rendering of a natural number (Python `str(n)`), by fuel. -/
def pyStrNatAux : Nat → Nat → Str
  | 0, _ => []
  | f + 1, n =>
    if n < 10 then [Char.ofNat (48 + n)]
    else pyStrNatAux f (n / 10) ++ [Char.ofNat (48 + n % 10)]

/-- Decimal rendering of a natural number (Python `str(n)`). -/
def pyStrNat (n : Nat) : Str := pyStrNatAux (n + 1) n

/-- Decimal rendering of an integer (Python `str(v)`). -/
def pyStrInt (v : Int) : Str :=
  if v < 0 then '-' :: pyStrNat (-v).toNat else pyStrNat v.toNat

/-- Model of `EncryptedText.get_info`: the rendered record line; recomputes
`decrypt()` each time, so it can raise (`none`). -/
def get_info (r : Record) : Option Str :=
  (decryptR r).map (fun dec =>
    "type: ".data ++ className r ++
    ", owner: ".data ++ r.owner_name ++
    ", date: ".data ++ r.date ++
    ", original: ".data ++ r.text ++
    ", encrypted: ".data ++ r.encrypted_text ++
    ", decrypted: ".data ++ dec)

/-- The line emitted by each variant's `print` method. -/
def renderLine (r : Record) : Option Str :=
  match r.params with
  | .substitution _ _ => (get_info r).map (fun i => "SUBSTITUTION: ".data ++ i)
  | .shift v =>
    (get_info r).map (fun i =>
      "SHIFT: ".data ++ i ++ ", shift: ".data ++ pyStrInt v)

/-- The apostrophe character used in the `Added ... for owner '...'`
messages. -/
def apos : Char := Char.ofNat 39

/-- A printed line: the text followed by a newline. -/
def msgLine (s : Str) : Str := s ++ ['\n']

/-- The `Removed <n> items` message. -/
def removedMsg (n : Nat) : Str :=
  "Removed ".data ++ pyStrNat n ++ " items".data ++ ['\n']

/-- The quote stripping applied to a REM value:
`value_str[1:-1]` when it both starts and ends with `"`. -/
def stripQuotesPair (s : Str) : Str :=
  if s.head? = some '\"' ∧ s.getLast? = some '\"' then (s.drop 1).dropLast
  else s

/-- Model of `CommandProcessor.process_remove_command`. -/
def processRemoveCommand (command : Str) (store : List Record) :
    List Record × Str :=
  let parts := pySplit command
  if parts.length < 3 then (store, msgLine ("Invalid REM command format".data))
  else
    let field := (parts[0]?).getD []
    let op := (parts[1]?).getD []
    let value := stripQuotesPair (joinSpace (parts.drop 2))
    if field = "owner".data ∧ op = "==".data then
      let ns := store.filter (fun t => !(t.owner_name == value))
      (ns, removedMsg (store.length - ns.length))
    else if field = "owner".data ∧ op = "!=".data then
      let ns := store.filter (fun t => t.owner_name == value)
      (ns, removedMsg (store.length - ns.length))
    else if field = "date".data ∧ op = "==".data then
      let ns := store.filter (fun t => !(t.date == value))
      (ns, removedMsg (store.length - ns.length))
    else if field = "length".data ∧ op = ">".data then
      match pyInt value with
      | none => (store, msgLine ("Invalid length value".data))
      | some n =>
        let ns := store.filter (fun t => decide ((t.text.length : Int) ≤ n))
        (ns, removedMsg (store.length - ns.length))
    else if field = "length".data ∧ op = "<".data then
      match pyInt value with
      | none => (store, msgLine ("Invalid length value".data))
      | some n =>
        let ns := store.filter (fun t => decide (n ≤ (t.text.length : Int)))
        (ns, removedMsg (store.length - ns.length))
    else
      (store, msgLine ("Unknown REM condition: ".data ++ field ++ [' '] ++
        op ++ [' '] ++ value))

/-- Model of `CommandProcessor.add_substitution_cipher`. -/
def addSubstitutionCipher (command : Str) (store : List Record) :
    Option (List Record × Str) :=
  match parse_quoted_string command with
  | (none, _) => some (store, msgLine ("Invalid text format".data))
  | (some text, rest) =>
    let parts := pySplit rest
    if parts.length < 4 then
      some (store, msgLine ("Invalid SUBSTITUTION command format".data))
    else
      let owner := (parts[0]?).getD []
      let date := (parts[1]?).getD []
      match parse_quoted_string (joinSpace (parts.drop 2)) with
      | (none, _) => some (store, msgLine ("Invalid source alphabet format".data))
      | (some sourceAlpha, restAfterSource) =>
        match parse_quoted_string restAfterSource with
        | (none, _) => some (store, msgLine ("Invalid target alphabet format".data))
        | (some targetAlpha, _) =>
          match mkSubstitutionCipher text owner date sourceAlpha targetAlpha with
          | none => none
          | some r =>
            some (store ++ [r],
              "Added SUBSTITUTION cipher for owner ".data ++
              apos :: owner ++ [apos, '\n'])

/-- Model of `CommandProcessor.add_shift_cipher`. -/
def addShiftCipher (command : Str) (store : List Record) :
    Option (List Record × Str) :=
  match parse_quoted_string command with
  | (none, _) => some (store, msgLine ("Invalid text format".data))
  | (some text, rest) =>
    let parts := pySplit rest
    if parts.length < 3 then
      some (store, msgLine ("Invalid SHIFT command format".data))
    else
      let owner := (parts[0]?).getD []
      let date := (parts[1]?).getD []
      match pyInt ((parts[2]?).getD []) with
      | none => some (store, msgLine ("Invalid shift value".data))
      | some v =>
        some (store ++ [mkShiftCipher text owner date v],
          "Added SHIFT cipher for owner ".data ++ apos :: owner ++ [apos, '\n'])

/-- Model of `CommandProcessor.process_add_command`. -/
def processAddCommand (command : Str) (store : List Record) :
    Option (List Record × Str) :=
  match pySplitMax1 command with
  | [] => some (store, msgLine ("Invalid ADD command".data))
  | ct :: restL =>
    let rest := restL.headD []
    if ct = "SUBSTITUTION".data then addSubstitutionCipher rest store
    else if ct = "SHIFT".data then addShiftCipher rest store
    else some (store, "Unknown cipher type: ".data ++ ct ++ ['\n'])

/-- The loop body of `process_print_command`: `print(f"{i}. ", end="")`
followed by the record's `print()`; a failing `decrypt` raises (`none`). -/
def printLoop (i : Nat) : List Record → Option Str
  | [] => some []
  | r :: rs =>
    match renderLine r, printLoop (i + 1) rs with
    | some line, some rest => some (pyStrNat i ++ ". ".data ++ line ++ '\n' :: rest)
    | _, _ => none

/-- Model of `CommandProcessor.process_print_command`. -/
def processPrintCommand (store : List Record) : Option Str :=
  if store = [] then some ("No encrypted texts available".data ++ ['\n'])
  else
    (printLoop 1 store).map (fun body =>
      '\n' :: "ENCRYPTED TEXTS".data ++ ['\n'] ++ body ++ ['\n'])

/-- Model of `CommandProcessor.process_command`: strip the line, split off the command
word, dispatch. -/
def processCommand (line : Str) (store : List Record) :
    Option (List Record × Str) :=
  let l := pyStrip line
  if l = [] then some (store, [])
  else
    match pySplitMax1 l with
    | [] => some (store, [])
    | cmd :: restL =>
      let rest := restL.headD []
      if cmd = "ADD".data then processAddCommand rest store
      else if cmd = "REM".data then some (processRemoveCommand rest store)
      else if cmd = "PRINT".data then
        (processPrintCommand store).map (fun out => (store, out))
      else some (store, "Unknown command: ".data ++ cmd ++ ['\n'])

/-- The invariant of spec section 3: a record's cached `encrypted_text` is the
image of its `text` under its variant's encode function with its stored
parameters. -/
def encryptedOK (r : Record) : Prop :=
  match r.params with
  | .substitution src tgt => substEncrypt src tgt r.text = some r.encrypted_text
  | .shift v => r.encrypted_text = shiftEncrypt v r.text

theorem char_toNat_ofNat (n : Nat) (h : n < 55296) : (Char.ofNat n).toNat = n := by
  have hv : n.isValidChar := Or.inl h
  unfold Char.ofNat
  rw [dif_pos hv]
  rfl

theorem char_eq_of_toNat_eq {c d : Char} (h : c.toNat = d.toNat) : c = d :=
  Char.eq_of_val_eq (UInt32.toNat.inj h)

theorem pyToLower_of_not_upper {c : Char} (h : pyIsUpper c = false) :
    pyToLower c = c := by
  unfold pyToLower
  rw [h]
  simp

theorem pyToLower_toNat_of_upper {c : Char} (h : pyIsUpper c = true) :
    (pyToLower c).toNat = c.toNat + 32 := by
  unfold pyIsUpper at h
  simp at h
  unfold pyToLower pyIsUpper
  rw [if_pos (by simp; omega)]
  exact char_toNat_ofNat _ (by omega)

theorem pyToUpper_of_not_lower {c : Char} (h : pyIsLower c = false) :
    pyToUpper c = c := by
  unfold pyToUpper
  rw [h]
  simp

theorem pyToUpper_toNat_of_lower {c : Char} (h : pyIsLower c = true) :
    (pyToUpper c).toNat = c.toNat - 32 := by
  unfold pyIsLower at h
  simp at h
  unfold pyToUpper pyIsLower
  rw [if_pos (by simp; omega)]
  exact char_toNat_ofNat _ (by omega)

theorem pyIsLower_pyToLower_of_upper {c : Char} (h : pyIsUpper c = true) :
    pyIsLower (pyToLower c) = true := by
  have h2 := pyToLower_toNat_of_upper h
  unfold pyIsUpper at h
  simp at h
  unfold pyIsLower
  simp
  omega

theorem pyIsUpper_pyToUpper_of_lower {c : Char} (h : pyIsLower c = true) :
    pyIsUpper (pyToUpper c) = true := by
  have h2 := pyToUpper_toNat_of_lower h
  unfold pyIsLower at h
  simp at h
  unfold pyIsUpper
  simp
  omega

theorem pyIsUpper_of_lower {c : Char} (h : pyIsLower c = true) :
    pyIsUpper c = false := by
  unfold pyIsLower at h
  unfold pyIsUpper
  simp at h ⊢
  omega

theorem pyToUpper_pyToLower {c : Char} (h : pyIsUpper c = true) :
    pyToUpper (pyToLower c) = c := by
  apply char_eq_of_toNat_eq
  rw [pyToUpper_toNat_of_lower (pyIsLower_pyToLower_of_upper h),
    pyToLower_toNat_of_upper h]
  omega

theorem pyToLower_pyToUpper {c : Char} (h : pyIsLower c = true) :
    pyToLower (pyToUpper c) = c := by
  apply char_eq_of_toNat_eq
  rw [pyToLower_toNat_of_upper (pyIsUpper_pyToUpper_of_lower h),
    pyToUpper_toNat_of_lower h]
  unfold pyIsLower at h
  simp at h
  omega

theorem pyToLower_of_lower {c : Char} (h : pyIsLower c = true) :
    pyToLower c = c :=
  pyToLower_of_not_upper (pyIsUpper_of_lower h)

/-- Round trip of one character of the substitution cipher, under the
conditions: the target alphabet has no repeated characters, the alphabets
have equal length, every target character occurs in the source alphabet, and
every target character is a lower-case ASCII letter. -/
theorem subst_roundtrip_char (src tgt : Str) (hnd : tgt.Nodup)
    (hlen : src.length = tgt.length) (hsub : ∀ x ∈ tgt, x ∈ src)
    (hlow : ∀ x ∈ tgt, pyIsLower x = true) (c : Char) :
    ∃ e, substEncryptChar src tgt c = some e ∧ substDecryptChar src tgt e = some c := by
  by_cases hmem : pyToLower c ∈ src
  · have hpos : src.indexOf (pyToLower c) < src.length :=
      List.indexOf_lt_length.mpr hmem
    have hpos' : src.indexOf (pyToLower c) < tgt.length := hlen ▸ hpos
    set e0 := tgt[src.indexOf (pyToLower c)] with he0
    have he0mem : e0 ∈ tgt := List.getElem_mem hpos'
    have he0low : pyIsLower e0 = true := hlow e0 he0mem
    have hgete : tgt[src.indexOf (pyToLower c)]? = some e0 :=
      List.getElem?_eq_getElem hpos'
    refine ⟨if pyIsUpper c then pyToUpper e0 else e0, ?_, ?_⟩
    · unfold substEncryptChar
      rw [if_pos hmem, hgete]
    · have hlowe : pyToLower (if pyIsUpper c then pyToUpper e0 else e0) = e0 := by
        by_cases hu : pyIsUpper c = true
        · rw [if_pos hu]
          exact pyToLower_pyToUpper he0low
        · rw [if_neg hu]
          exact pyToLower_of_lower he0low
      unfold substDecryptChar
      rw [hlowe, if_pos he0mem]
      have hidx : tgt.indexOf e0 = src.indexOf (pyToLower c) :=
        List.indexOf_getElem hnd _ hpos'
      rw [hidx]
      have hgets : src[src.indexOf (pyToLower c)]? = some (pyToLower c) := by
        rw [List.getElem?_eq_getElem hpos]
        exact congrArg some (List.getElem_indexOf hpos)
      rw [hgets]
      by_cases hu : pyIsUpper c = true
      · rw [if_pos hu, pyIsUpper_pyToUpper_of_lower he0low]
        simp
        exact pyToUpper_pyToLower hu
      · rw [if_neg hu, pyIsUpper_of_lower he0low]
        simp
        exact pyToLower_of_not_upper (by simpa using hu)
  · refine ⟨c, ?_, ?_⟩
    · unfold substEncryptChar
      rw [if_neg hmem]
    · unfold substDecryptChar
      have : ¬ pyToLower c ∈ tgt := fun hc => hmem (hsub _ hc)
      rw [if_neg this]

theorem subst_roundtrip_str (src tgt : Str) (hnd : tgt.Nodup)
    (hlen : src.length = tgt.length) (hsub : ∀ x ∈ tgt, x ∈ src)
    (hlow : ∀ x ∈ tgt, pyIsLower x = true) (text : Str) :
    ∃ out, substEncrypt src tgt text = some out ∧
      substDecrypt src tgt out = some text := by
  induction text with
  | nil => exact ⟨[], rfl, rfl⟩
  | cons c cs ih =>
    obtain ⟨e, he, hd⟩ := subst_roundtrip_char src tgt hnd hlen hsub hlow c
    obtain ⟨out, ho, hdo⟩ := ih
    refine ⟨e :: out, ?_, ?_⟩
    · unfold substEncrypt
      rw [he, ho]
    · unfold substDecrypt
      rw [hd, hdo]

theorem emod26_nonneg (x : Int) : 0 ≤ x % 26 := Int.emod_nonneg x (by decide)

theorem emod26_lt (x : Int) : x % 26 < 26 := Int.emod_lt_of_pos x (by decide)

theorem shiftEncryptChar_toNat (v : Int) (c : Char) (base : Nat)
    (hb : base = 65 ∨ base = 97)
    (h1 : base ≤ c.toNat) (h2 : c.toNat < base + 26) :
    (shiftEncryptChar v c).toNat =
      (((c.toNat : Int) - base + v) % 26 + base).toNat := by
  have halpha : pyIsAlpha c = true := by
    unfold pyIsAlpha pyIsUpper pyIsLower
    rcases hb with h | h <;> subst h <;> simp <;> omega
  unfold shiftEncryptChar
  rw [if_pos halpha]
  have hbase : (if pyIsUpper c then (65:Int) else 97) = (base : Nat) := by
    unfold pyIsUpper
    rcases hb with h | h <;> subst h <;> simp <;> omega
  rw [hbase]
  apply char_toNat_ofNat
  have hnn := emod26_nonneg ((c.toNat : Int) - base + v)
  have hlt := emod26_lt ((c.toNat : Int) - base + v)
  omega

/-- Round trip of one character of the shift cipher; holds for every
character (non-letters pass through both maps). -/
theorem shift_roundtrip_char (v : Int) (c : Char) :
    shiftDecryptChar v (shiftEncryptChar v c) = c := by
  by_cases halpha : pyIsAlpha c = true
  · have hrange : (65 ≤ c.toNat ∧ c.toNat ≤ 90) ∨ (97 ≤ c.toNat ∧ c.toNat ≤ 122) := by
      unfold pyIsAlpha pyIsUpper pyIsLower at halpha
      simp at halpha
      omega
    obtain ⟨base, hb, h1, h2⟩ :
        ∃ base, (base = 65 ∨ base = 97) ∧ base ≤ c.toNat ∧ c.toNat < base + 26 := by
      rcases hrange with ⟨a, b⟩ | ⟨a, b⟩
      · exact ⟨65, Or.inl rfl, a, by omega⟩
      · exact ⟨97, Or.inr rfl, a, by omega⟩
    have henc := shiftEncryptChar_toNat v c base hb h1 h2
    set e := shiftEncryptChar v c with hedef
    have hnn := emod26_nonneg ((c.toNat : Int) - base + v)
    have hlt := emod26_lt ((c.toNat : Int) - base + v)
    have he1 : base ≤ e.toNat := by omega
    have he2 : e.toNat < base + 26 := by omega
    have halphae : pyIsAlpha e = true := by
      unfold pyIsAlpha pyIsUpper pyIsLower
      rcases hb with h | h <;> subst h <;> simp <;> omega
    have hbasee : (if pyIsUpper e then (65:Int) else 97) = (base : Nat) := by
      unfold pyIsUpper
      rcases hb with h | h <;> subst h <;> simp <;> omega
    unfold shiftDecryptChar
    rw [if_pos halphae, hbasee]
    apply char_eq_of_toNat_eq
    rw [char_toNat_ofNat]
    · have hetoInt : (e.toNat : Int) = ((c.toNat : Int) - base + v) % 26 + base := by
        omega
      rw [hetoInt]
      have harr : ((c.toNat : Int) - base + v) % 26 + base - base - v
          = ((c.toNat : Int) - base + v) % 26 - v := by ring
      rw [harr]
      have hmod : (((c.toNat : Int) - base + v) % 26 - v) % 26
          = ((c.toNat : Int) - base) % 26 := by
        conv_rhs => rw [show (c.toNat : Int) - base = ((c.toNat : Int) - base + v) - v by ring]
        rw [Int.sub_emod, Int.sub_emod ((c.toNat : Int) - base + v) v, Int.emod_emod_of_dvd]
        decide
      rw [hmod]
      have hid : ((c.toNat : Int) - base) % 26 = (c.toNat : Int) - base := by
        apply Int.emod_eq_of_lt <;> omega
      rw [hid]
      omega
    · have hn := emod26_nonneg (((e.toNat : Int)) - base - v)
      have hl := emod26_lt (((e.toNat : Int)) - base - v)
      omega
  · simp only [shiftEncryptChar, shiftDecryptChar, if_neg halpha]

theorem shift_roundtrip_str (v : Int) (text : Str) :
    shiftDecrypt v (shiftEncrypt v text) = text := by
  unfold shiftDecrypt shiftEncrypt
  rw [List.map_map]
  induction text with
  | nil => rfl
  | cons c cs ih =>
    simp only [List.map_cons, Function.comp_apply, shift_roundtrip_char, ih]

/-- C1: for every ASCII letter and every integer shift (any sign, any
magnitude), decrypting the encryption returns the letter unchanged, case
included; and for every string, `ShiftCipher.decrypt` applied to the cached
`encrypted_text` is the original text. -/
theorem shift_cipher_roundtrip :
    (∀ (c : Char) (v : Int), pyIsAlpha c = true →
      shiftDecryptChar v (shiftEncryptChar v c) = c)
  ∧ (∀ (text owner date : Str) (v : Int),
      decryptR (mkShiftCipher text owner date v) = some text) := by
  constructor
  · intro c v _
    exact shift_roundtrip_char v c
  · intro text owner date v
    unfold decryptR mkShiftCipher
    simp only
    rw [shift_roundtrip_str]

/-- Witness for C1: concrete letters and shifts, including a negative shift
and one beyond 26. -/
theorem shift_cipher_roundtrip_wit :
    shiftDecryptChar 55 (shiftEncryptChar 55 'M') = 'M'
  ∧ shiftDecryptChar (-3) (shiftEncryptChar (-3) 'z') = 'z'
  ∧ decryptR (mkShiftCipher ("Hi there".data) ("bob".data) ("2024-01-01".data) 3)
      = some ("Hi there".data) := by
  refine ⟨?_, ?_, ?_⟩
  · exact shift_cipher_roundtrip.1 'M' 55 (by decide)
  · exact shift_cipher_roundtrip.1 'z' (-3) (by decide)
  · exact shift_cipher_roundtrip.2 ("Hi there".data) ("bob".data) ("2024-01-01".data) 3

/-- C2 (amended): the substitution round trip holds for every text when, after
the constructor's lower-casing, the target alphabet has no repeated
characters, the alphabets have equal length, every target character occurs in
the source alphabet, and the target alphabet consists of lower-case ASCII
letters. -/
theorem substitution_roundtrip (text owner date sourceAlpha targetAlpha : Str)
    (hnd : (pyLowerStr targetAlpha).Nodup)
    (hlen : sourceAlpha.length = targetAlpha.length)
    (hsub : ∀ x ∈ pyLowerStr targetAlpha, x ∈ pyLowerStr sourceAlpha)
    (hlow : ∀ x ∈ pyLowerStr targetAlpha, pyIsLower x = true) :
    ∃ r, mkSubstitutionCipher text owner date sourceAlpha targetAlpha = some r
      ∧ decryptR r = some text := by
  have hlen' : (pyLowerStr sourceAlpha).length = (pyLowerStr targetAlpha).length := by
    simp [pyLowerStr, hlen]
  obtain ⟨out, ho, hd⟩ :=
    subst_roundtrip_str _ _ hnd hlen' hsub hlow text
  refine ⟨⟨text, owner, date,
    .substitution (pyLowerStr sourceAlpha) (pyLowerStr targetAlpha), out⟩, ?_, ?_⟩
  · unfold mkSubstitutionCipher
    simp only
    rw [ho]
  · unfold decryptR
    exact hd

/-- Witness for C2 (amended): mixed-case text over the alphabet pair
`("ab", "ba")`. -/
theorem substitution_roundtrip_wit :
    ∃ r, mkSubstitutionCipher ("Ab!".data) ("o".data) ("d".data) ("ab".data) ("ba".data)
      = some r ∧ decryptR r = some ("Ab!".data) :=
  substitution_roundtrip ("Ab!".data) ("o".data) ("d".data) ("ab".data) ("ba".data)
    (by decide) (by decide) (by decide) (by decide)

/-- Counterexample to C2 as stated: with source `"a"` and target `"b"` the
target alphabet has no repeated characters and the alphabets have equal
length, yet the text `"b"` encrypts to `"b"` (pass-through) and decrypts to
`"a"`, not back to `"b"`. -/
theorem substitution_roundtrip_cex :
    ("b".data).Nodup
  ∧ ("a".data).length = ("b".data).length
  ∧ (mkSubstitutionCipher ("b".data) ("o".data) ("d".data) ("a".data) ("b".data)).map
      decryptR = some (some ("a".data))
  ∧ ("a".data) ≠ ("b".data) := by
  refine ⟨by decide, by decide, by decide, by decide⟩

theorem substEncrypt_length (src tgt : Str) (text out : Str)
    (h : substEncrypt src tgt text = some out) : out.length = text.length := by
  induction text generalizing out with
  | nil =>
    unfold substEncrypt at h
    simp at h
    simp [← h]
  | cons c cs ih =>
    unfold substEncrypt at h
    rcases he : substEncryptChar src tgt c with _ | e <;> rw [he] at h
    · simp at h
    · rcases hr : substEncrypt src tgt cs with _ | es <;> rw [hr] at h
      · simp at h
      · simp at h
        rw [← h]
        simp [ih es hr]

theorem substDecrypt_length (src tgt : Str) (text out : Str)
    (h : substDecrypt src tgt text = some out) : out.length = text.length := by
  induction text generalizing out with
  | nil =>
    unfold substDecrypt at h
    simp at h
    simp [← h]
  | cons c cs ih =>
    unfold substDecrypt at h
    rcases he : substDecryptChar src tgt c with _ | e <;> rw [he] at h
    · simp at h
    · rcases hr : substDecrypt src tgt cs with _ | es <;> rw [hr] at h
      · simp at h
      · simp at h
        rw [← h]
        simp [ih es hr]

/-- C10: both ciphers are length preserving: each input character contributes
exactly one output character, in encryption and decryption. -/
theorem cipher_length_preserving :
    (∀ (v : Int) (text : Str), (shiftEncrypt v text).length = text.length
      ∧ (shiftDecrypt v text).length = text.length)
  ∧ (∀ (src tgt text out : Str), substEncrypt src tgt text = some out →
      out.length = text.length)
  ∧ (∀ (src tgt text out : Str), substDecrypt src tgt text = some out →
      out.length = text.length) := by
  refine ⟨?_, ?_, ?_⟩
  · intro v text
    constructor <;> simp [shiftEncrypt, shiftDecrypt]
  · intro src tgt text out h
    exact substEncrypt_length src tgt text out h
  · intro src tgt text out h
    exact substDecrypt_length src tgt text out h

/-- Witness for C10 at concrete inputs. -/
theorem cipher_length_preserving_wit :
    (shiftEncrypt 7 ("Ab c!".data)).length = ("Ab c!".data).length
  ∧ ("b!".data).length = ("a!".data).length
  ∧ ("a!".data).length = ("b!".data).length := by
  refine ⟨(cipher_length_preserving.1 7 ("Ab c!".data)).1, ?_, ?_⟩
  · exact cipher_length_preserving.2.1 ("a".data) ("b".data) ("a!".data) ("b!".data)
      (by decide)
  · exact cipher_length_preserving.2.2 ("a".data) ("b".data) ("b!".data) ("a!".data)
      (by decide)

theorem substEncryptChar_total (src tgt : Str) (hlen : src.length = tgt.length)
    (c : Char) : ∃ e, substEncryptChar src tgt c = some e := by
  unfold substEncryptChar
  by_cases hmem : pyToLower c ∈ src
  · rw [if_pos hmem]
    have hpos : src.indexOf (pyToLower c) < tgt.length :=
      hlen ▸ List.indexOf_lt_length.mpr hmem
    rw [List.getElem?_eq_getElem hpos]
    exact ⟨_, rfl⟩
  · rw [if_neg hmem]
    exact ⟨c, rfl⟩

theorem substDecryptChar_total (src tgt : Str) (hlen : src.length = tgt.length)
    (c : Char) : ∃ e, substDecryptChar src tgt c = some e := by
  unfold substDecryptChar
  by_cases hmem : pyToLower c ∈ tgt
  · rw [if_pos hmem]
    have hpos : tgt.indexOf (pyToLower c) < src.length :=
      hlen.symm ▸ List.indexOf_lt_length.mpr hmem
    rw [List.getElem?_eq_getElem hpos]
    exact ⟨_, rfl⟩
  · rw [if_neg hmem]
    exact ⟨c, rfl⟩

theorem substEncrypt_total (src tgt : Str) (hlen : src.length = tgt.length)
    (text : Str) : ∃ out, substEncrypt src tgt text = some out := by
  induction text with
  | nil => exact ⟨[], rfl⟩
  | cons c cs ih =>
    obtain ⟨e, he⟩ := substEncryptChar_total src tgt hlen c
    obtain ⟨out, ho⟩ := ih
    refine ⟨e :: out, ?_⟩
    unfold substEncrypt
    rw [he, ho]

theorem substDecrypt_total (src tgt : Str) (hlen : src.length = tgt.length)
    (text : Str) : ∃ out, substDecrypt src tgt text = some out := by
  induction text with
  | nil => exact ⟨[], rfl⟩
  | cons c cs ih =>
    obtain ⟨e, he⟩ := substDecryptChar_total src tgt hlen c
    obtain ⟨out, ho⟩ := ih
    refine ⟨e :: out, ?_⟩
    unfold substDecrypt
    rw [he, ho]

/-- C7 (amended): when the two alphabets have equal length, encode and decode
raise no error on any text; and, unconditionally, a character whose
lower-case form is outside the source alphabet (encode) or target alphabet
(decode), or a non-letter for the shift cipher, passes through verbatim. -/
theorem cipher_no_internal_errors :
    (∀ (src tgt : Str), src.length = tgt.length → ∀ text : Str,
        (∃ out, substEncrypt src tgt text = some out)
      ∧ (∃ out, substDecrypt src tgt text = some out))
  ∧ (∀ (src tgt : Str) (c : Char), pyToLower c ∉ src →
      substEncryptChar src tgt c = some c)
  ∧ (∀ (src tgt : Str) (c : Char), pyToLower c ∉ tgt →
      substDecryptChar src tgt c = some c)
  ∧ (∀ (v : Int) (c : Char), pyIsAlpha c = false →
      shiftEncryptChar v c = c ∧ shiftDecryptChar v c = c) := by
  refine ⟨?_, ?_, ?_, ?_⟩
  · intro src tgt hlen text
    exact ⟨substEncrypt_total src tgt hlen text, substDecrypt_total src tgt hlen text⟩
  · intro src tgt c hmem
    unfold substEncryptChar
    rw [if_neg hmem]
  · intro src tgt c hmem
    unfold substDecryptChar
    rw [if_neg hmem]
  · intro v c halpha
    constructor <;> simp [shiftEncryptChar, shiftDecryptChar, halpha]

/-- Witness for C7 (amended) at concrete inputs. -/
theorem cipher_no_internal_errors_wit :
    ((∃ out, substEncrypt ("ab".data) ("xy".data) ("Ab?".data) = some out)
      ∧ (∃ out, substDecrypt ("ab".data) ("xy".data) ("Ab?".data) = some out))
  ∧ substEncryptChar ("ab".data) ("xy".data) '?' = some '?'
  ∧ substDecryptChar ("ab".data) ("xy".data) 'a' = some 'a'
  ∧ (shiftEncryptChar 3 '!' = '!' ∧ shiftDecryptChar 3 '!' = '!') := by
  refine ⟨?_, ?_, ?_, ?_⟩
  · exact cipher_no_internal_errors.1 ("ab".data) ("xy".data) (by decide) ("Ab?".data)
  · exact cipher_no_internal_errors.2.1 ("ab".data) ("xy".data) '?' (by decide)
  · exact cipher_no_internal_errors.2.2.1 ("ab".data) ("xy".data) 'a' (by decide)
  · exact cipher_no_internal_errors.2.2.2 3 '!' (by decide)

/-- Counterexample to C7 as stated: with source alphabet `"ab"` and target
alphabet `"x"`, encrypting the text `"b"` evaluates `target_alphabet[1]`,
which raises `IndexError` — so encode does not succeed for arbitrary cipher
parameters. -/
theorem cipher_no_internal_errors_cex :
    substEncrypt ("ab".data) ("x".data) ("b".data) = none := by decide

theorem takeWhile_append_stop (p : Char → Bool) (a : List Char)
    (ha : ∀ x ∈ a, p x = true) (b : Char) (hb : p b = false) (c : List Char) :
    List.takeWhile p (a ++ b :: c) = a := by
  induction a with
  | nil => simp [List.takeWhile, hb]
  | cons x xs ih =>
    have hx : p x = true := ha x (by simp)
    simp only [List.cons_append, List.takeWhile, hx, List.append_eq]
    rw [ih (fun y hy => ha y (by simp [hy]))]

theorem dropWhile_append_stop (p : Char → Bool) (a : List Char)
    (b : Char) (hb : p b = false) (c : List Char) :
    List.dropWhile p (a ++ b :: c) = List.dropWhile p a ++ b :: c := by
  induction a with
  | nil => simp [List.dropWhile, hb]
  | cons x xs ih =>
    by_cases hx : p x = true
    · simp only [List.cons_append, List.dropWhile, hx]
      exact ih
    · have hx' : p x = false := by simpa using hx
      simp only [List.cons_append, List.dropWhile, hx', List.append_eq]

theorem takeWhile_all (p : Char → Bool) (a : List Char)
    (ha : ∀ x ∈ a, p x = true) : List.takeWhile p a = a := by
  induction a with
  | nil => rfl
  | cons x xs ih =>
    simp only [List.takeWhile, ha x (by simp)]
    rw [ih (fun y hy => ha y (by simp [hy]))]

theorem dropWhile_all (p : Char → Bool) (a : List Char)
    (ha : ∀ x ∈ a, p x = true) : List.dropWhile p a = [] := by
  induction a with
  | nil => rfl
  | cons x xs ih =>
    simp only [List.dropWhile, ha x (by simp)]
    exact ih (fun y hy => ha y (by simp [hy]))

theorem pySplitAux_nonspace (w : Str) (hw : ∀ x ∈ w, pyIsSpace x = false)
    (s acc : Str) : pySplitAux (w ++ s) acc = pySplitAux s (w.reverse ++ acc) := by
  induction w generalizing acc with
  | nil => simp
  | cons c cs ih =>
    have hc : pyIsSpace c = false := hw c (by simp)
    rw [List.cons_append]
    show (if pyIsSpace c = true then _ else pySplitAux (cs ++ s) (c :: acc)) = _
    rw [if_neg (by simp [hc])]
    rw [ih (fun y hy => hw y (by simp [hy])) (c :: acc)]
    simp

theorem pySplit_nil : pySplit [] = [] := rfl

theorem pySplit_word_cons (w : Str) (r : Str) (hw0 : w ≠ [])
    (hw : ∀ x ∈ w, pyIsSpace x = false) :
    pySplit (w ++ ' ' :: r) = w :: pySplit r := by
  unfold pySplit
  rw [pySplitAux_nonspace w hw (' ' :: r) []]
  rw [List.append_nil]
  have hwr : w.reverse ≠ [] := by simpa using hw0
  show (if pyIsSpace ' ' = true then
      (if w.reverse = [] then pySplitAux r [] else w.reverse.reverse :: pySplitAux r [])
    else pySplitAux r (' ' :: w.reverse)) = _
  rw [if_pos (by decide), if_neg hwr, List.reverse_reverse]

theorem pySplit_word (w : Str) (hw0 : w ≠ [])
    (hw : ∀ x ∈ w, pyIsSpace x = false) :
    pySplit w = [w] := by
  have h := pySplitAux_nonspace w hw [] []
  rw [List.append_nil] at h
  unfold pySplit
  rw [h, List.append_nil]
  have hwr : w.reverse ≠ [] := by simpa using hw0
  show (if w.reverse = [] then [] else [w.reverse.reverse]) = _
  rw [if_neg hwr, List.reverse_reverse]

theorem joinSpace_single (v : Str) : joinSpace [v] = v := by
  simp [joinSpace, List.intercalate]

theorem length_sub_filter {α : Type} (q : α → Bool) (l : List α) :
    l.length - (l.filter q).length = l.countP (fun t => !q t) := by
  induction l with
  | nil => rfl
  | cons x xs ih =>
    by_cases hx : q x = true
    · rw [List.filter_cons_of_pos hx, List.countP_cons_of_neg _ _ (by simp [hx]),
        List.length_cons, List.length_cons, Nat.succ_sub_succ, ih]
    · have hx' : q x = false := by simpa using hx
      rw [List.filter_cons_of_neg (by simp [hx']),
        List.countP_cons_of_pos _ _ (by simp [hx']), List.length_cons, ← ih]
      have := List.length_filter_le q xs
      omega

theorem processRemoveCommand_parts (command : Str) (store : List Record)
    (f o : Str) (vs : List Str) (h : pySplit command = f :: o :: vs)
    (hvs : vs ≠ []) :
    processRemoveCommand command store =
      (if f = "owner".data ∧ o = "==".data then
        (store.filter (fun t => !(t.owner_name == stripQuotesPair (joinSpace vs))),
         removedMsg (store.length -
           (store.filter (fun t => !(t.owner_name == stripQuotesPair (joinSpace vs)))).length))
      else if f = "owner".data ∧ o = "!=".data then
        (store.filter (fun t => t.owner_name == stripQuotesPair (joinSpace vs)),
         removedMsg (store.length -
           (store.filter (fun t => t.owner_name == stripQuotesPair (joinSpace vs))).length))
      else if f = "date".data ∧ o = "==".data then
        (store.filter (fun t => !(t.date == stripQuotesPair (joinSpace vs))),
         removedMsg (store.length -
           (store.filter (fun t => !(t.date == stripQuotesPair (joinSpace vs)))).length))
      else if f = "length".data ∧ o = ">".data then
        match pyInt (stripQuotesPair (joinSpace vs)) with
        | none => (store, msgLine ("Invalid length value".data))
        | some n =>
          (store.filter (fun t => decide ((t.text.length : Int) ≤ n)),
           removedMsg (store.length -
             (store.filter (fun t => decide ((t.text.length : Int) ≤ n))).length))
      else if f = "length".data ∧ o = "<".data then
        match pyInt (stripQuotesPair (joinSpace vs)) with
        | none => (store, msgLine ("Invalid length value".data))
        | some n =>
          (store.filter (fun t => decide (n ≤ (t.text.length : Int))),
           removedMsg (store.length -
             (store.filter (fun t => decide (n ≤ (t.text.length : Int)))).length))
      else
        (store, msgLine ("Unknown REM condition: ".data ++ f ++ [' '] ++ o ++
          [' '] ++ stripQuotesPair (joinSpace vs)))) := by
  have hvslen : 0 < vs.length := List.length_pos.mpr hvs
  unfold processRemoveCommand
  rw [h]
  rw [if_neg (by simp only [List.length_cons]; omega)]
  simp only [List.getElem?_cons_zero, List.getElem?_cons_succ, Option.getD_some,
    List.drop_succ_cons, List.drop_zero]

theorem pySplit_three (a b : Str) (v : Str) (hv0 : v ≠ [])
    (hv : ∀ x ∈ v, pyIsSpace x = false)
    (ha0 : a ≠ []) (ha : ∀ x ∈ a, pyIsSpace x = false)
    (hb0 : b ≠ []) (hb : ∀ x ∈ b, pyIsSpace x = false) :
    pySplit (a ++ ' ' :: (b ++ ' ' :: v)) = [a, b, v] := by
  rw [pySplit_word_cons a _ ha0 ha, pySplit_word_cons b _ hb0 hb,
    pySplit_word v hv0 hv]

/-- C3: `REM owner == v` removes exactly the records whose owner equals the
(quote-stripped) value, keeping the others in order, and reports exactly that
count; repeating the same command removes nothing and reports 0; and
`REM owner != v` removes exactly the records whose owner differs. -/
theorem rem_owner_semantics (store : List Record) (v : Str) (hv0 : v ≠ [])
    (hv : ∀ x ∈ v, pyIsSpace x = false) :
    (processRemoveCommand ("owner == ".data ++ v) store
      = (store.filter (fun t => !(t.owner_name == stripQuotesPair v)),
         removedMsg (store.countP (fun t => t.owner_name == stripQuotesPair v))))
  ∧ (processRemoveCommand ("owner == ".data ++ v)
        (store.filter (fun t => !(t.owner_name == stripQuotesPair v)))
      = (store.filter (fun t => !(t.owner_name == stripQuotesPair v)),
         removedMsg 0))
  ∧ (processRemoveCommand ("owner != ".data ++ v) store
      = (store.filter (fun t => t.owner_name == stripQuotesPair v),
         removedMsg (store.countP (fun t => !(t.owner_name == stripQuotesPair v))))) := by
  have hsplitEq : pySplit ("owner == ".data ++ v) = ["owner".data, "==".data, v] := by
    have hcmd : "owner == ".data ++ v
        = "owner".data ++ ' ' :: ("==".data ++ ' ' :: v) := rfl
    rw [hcmd]
    exact pySplit_three _ _ v hv0 hv (by decide) (by decide) (by decide) (by decide)
  have hsplitNe : pySplit ("owner != ".data ++ v) = ["owner".data, "!=".data, v] := by
    have hcmd : "owner != ".data ++ v
        = "owner".data ++ ' ' :: ("!=".data ++ ' ' :: v) := rfl
    rw [hcmd]
    exact pySplit_three _ _ v hv0 hv (by decide) (by decide) (by decide) (by decide)
  refine ⟨?_, ?_, ?_⟩
  · rw [processRemoveCommand_parts _ _ _ _ _ hsplitEq (by simp)]
    rw [if_pos ⟨rfl, rfl⟩, joinSpace_single, length_sub_filter]
    simp only [Bool.not_not]
  · rw [processRemoveCommand_parts _ _ _ _ _ hsplitEq (by simp)]
    rw [if_pos ⟨rfl, rfl⟩, joinSpace_single]
    have hns : (store.filter (fun t => !(t.owner_name == stripQuotesPair v))).filter
        (fun t => !(t.owner_name == stripQuotesPair v))
        = store.filter (fun t => !(t.owner_name == stripQuotesPair v)) := by
      rw [List.filter_filter]
      simp only [Bool.and_self]
    rw [hns, Nat.sub_self]
  · rw [processRemoveCommand_parts _ _ _ _ _ hsplitNe (by simp)]
    rw [if_neg (by decide), if_pos ⟨rfl, rfl⟩, joinSpace_single, length_sub_filter]

/-- Witness for C3 on a concrete two-record store. -/
theorem rem_owner_semantics_wit :
    (processRemoveCommand ("owner == ".data ++ "Alice".data)
        [mkShiftCipher ("x".data) ("Alice".data) ("d".data) 1,
         mkShiftCipher ("y".data) ("Bob".data) ("d".data) 1]
      = ([mkShiftCipher ("y".data) ("Bob".data) ("d".data) 1], removedMsg 1))
  ∧ (processRemoveCommand ("owner == ".data ++ "Alice".data)
        [mkShiftCipher ("y".data) ("Bob".data) ("d".data) 1]
      = ([mkShiftCipher ("y".data) ("Bob".data) ("d".data) 1], removedMsg 0))
  ∧ (processRemoveCommand ("owner != ".data ++ "Alice".data)
        [mkShiftCipher ("x".data) ("Alice".data) ("d".data) 1,
         mkShiftCipher ("y".data) ("Bob".data) ("d".data) 1]
      = ([mkShiftCipher ("x".data) ("Alice".data) ("d".data) 1], removedMsg 1)) := by
  have h := rem_owner_semantics
    [mkShiftCipher ("x".data) ("Alice".data) ("d".data) 1,
     mkShiftCipher ("y".data) ("Bob".data) ("d".data) 1]
    ("Alice".data) (by decide) (by decide)
  refine ⟨h.1.trans (by decide), ?_, h.2.2.trans (by decide)⟩
  have h2 := h.2.1
  rw [show ([mkShiftCipher ("x".data) ("Alice".data) ("d".data) 1,
      mkShiftCipher ("y".data) ("Bob".data) ("d".data) 1].filter
        (fun t => !(t.owner_name == stripQuotesPair ("Alice".data))))
      = [mkShiftCipher ("y".data) ("Bob".data) ("d".data) 1] from by decide] at h2
  exact h2

/-- C4: `REM length > v` keeps exactly the records whose original text length
is at most `v`, `REM length < v` keeps exactly those of length at least `v`,
and the reported count is the number of records dropped. -/
theorem rem_length_semantics (store : List Record) (v : Str) (n : Int)
    (hv0 : v ≠ []) (hv : ∀ x ∈ v, pyIsSpace x = false)
    (hn : pyInt (stripQuotesPair v) = some n) :
    (processRemoveCommand ("length > ".data ++ v) store
      = (store.filter (fun t => decide ((t.text.length : Int) ≤ n)),
         removedMsg (store.countP (fun t => !decide ((t.text.length : Int) ≤ n)))))
  ∧ (processRemoveCommand ("length < ".data ++ v) store
      = (store.filter (fun t => decide (n ≤ (t.text.length : Int))),
         removedMsg (store.countP (fun t => !decide (n ≤ (t.text.length : Int)))))) := by
  have hsplitGt : pySplit ("length > ".data ++ v) = ["length".data, ">".data, v] := by
    have hcmd : "length > ".data ++ v
        = "length".data ++ ' ' :: (">".data ++ ' ' :: v) := rfl
    rw [hcmd]
    exact pySplit_three _ _ v hv0 hv (by decide) (by decide) (by decide) (by decide)
  have hsplitLt : pySplit ("length < ".data ++ v) = ["length".data, "<".data, v] := by
    have hcmd : "length < ".data ++ v
        = "length".data ++ ' ' :: ("<".data ++ ' ' :: v) := rfl
    rw [hcmd]
    exact pySplit_three _ _ v hv0 hv (by decide) (by decide) (by decide) (by decide)
  constructor
  · rw [processRemoveCommand_parts _ _ _ _ _ hsplitGt (by simp)]
    rw [if_neg (by decide), if_neg (by decide), if_neg (by decide),
      if_pos ⟨rfl, rfl⟩, joinSpace_single, hn]
    simp only
    rw [length_sub_filter]
  · rw [processRemoveCommand_parts _ _ _ _ _ hsplitLt (by simp)]
    rw [if_neg (by decide), if_neg (by decide), if_neg (by decide),
      if_neg (by decide), if_pos ⟨rfl, rfl⟩, joinSpace_single, hn]
    simp only
    rw [length_sub_filter]

/-- Witness for C4 on a concrete two-record store with value 5. -/
theorem rem_length_semantics_wit :
    (processRemoveCommand ("length > ".data ++ "5".data)
        [mkShiftCipher ("abcdef".data) ("A".data) ("d".data) 1,
         mkShiftCipher ("ab".data) ("B".data) ("d".data) 1]
      = ([mkShiftCipher ("ab".data) ("B".data) ("d".data) 1], removedMsg 1))
  ∧ (processRemoveCommand ("length < ".data ++ "5".data)
        [mkShiftCipher ("abcdef".data) ("A".data) ("d".data) 1,
         mkShiftCipher ("ab".data) ("B".data) ("d".data) 1]
      = ([mkShiftCipher ("abcdef".data) ("A".data) ("d".data) 1], removedMsg 1)) := by
  have h := rem_length_semantics
    [mkShiftCipher ("abcdef".data) ("A".data) ("d".data) 1,
     mkShiftCipher ("ab".data) ("B".data) ("d".data) 1]
    ("5".data) 5 (by decide) (by decide) (by decide)
  exact ⟨h.1.trans (by decide), h.2.trans (by decide)⟩

theorem pyStrip_cons_of_head (c : Char) (hc : pyIsSpace c = false) (l : List Char) :
    pyStrip (c :: l) = c :: (List.dropWhile pyIsSpace l.reverse).reverse := by
  unfold pyStrip
  rw [List.dropWhile_cons, if_neg (by simp [hc])]
  rw [List.reverse_cons]
  rw [dropWhile_append_stop _ l.reverse c hc []]
  simp

/-- C8 (amended): if the input begins directly with `"`, a run of non-quote
characters and a closing `"`, the extractor returns the content and the
whitespace-trimmed remainder; if the first character is neither `"` nor
whitespace, or the input starts with `"` but has no closing quote, it signals
absence and returns the input unchanged.  (Inputs with leading whitespace are
excluded: there the extractor matches the stripped string but slices the
remainder from the original.) -/
theorem parse_quoted_string_spec :
    (∀ (content rest : Str), '\"' ∉ content →
        parse_quoted_string ('\"' :: content ++ '\"' :: rest)
          = (some content, pyStrip rest))
  ∧ (∀ (text : Str) (c : Char), text.head? = some c → c ≠ '\"' →
        pyIsSpace c = false → parse_quoted_string text = (none, text))
  ∧ (∀ (rest : Str), '\"' ∉ rest →
        parse_quoted_string ('\"' :: rest) = (none, '\"' :: rest)) := by
  refine ⟨?_, ?_, ?_⟩
  · intro content rest hq
    have hstrip : pyStrip ('\"' :: content ++ '\"' :: rest)
        = '\"' :: (content ++ '\"' :: (List.dropWhile pyIsSpace rest.reverse).reverse) := by
      rw [show ('\"' :: content ++ '\"' :: rest) = '\"' :: (content ++ '\"' :: rest) from rfl]
      rw [pyStrip_cons_of_head '\"' (by decide) (content ++ '\"' :: rest)]
      rw [show (content ++ '\"' :: rest).reverse
          = rest.reverse ++ '\"' :: content.reverse from by
        simp [List.reverse_append]]
      rw [dropWhile_append_stop _ rest.reverse '\"' (by decide) content.reverse]
      simp [List.reverse_append]
    unfold parse_quoted_string
    rw [hstrip]
    simp only [if_pos]
    have hcq : ∀ y ∈ content, (y != '\"') = true := by
      intro y hy
      have hyne : y ≠ '\"' := fun h => hq (h ▸ hy)
      simpa using hyne
    rw [takeWhile_append_stop _ content hcq '\"' (by decide) _]
    rw [if_pos (by simp)]
    have hdrop : ('\"' :: content ++ '\"' :: rest).drop (content.length + 2) = rest := by
      have hsh : ('\"' :: content ++ '\"' :: rest)
          = (('\"' :: content) ++ ['\"']) ++ rest := by simp
      rw [hsh]
      have hlen : (('\"' :: content) ++ ['\"']).length = content.length + 2 := by
        simp
      rw [← hlen, List.drop_left]
    rw [hdrop]
  · intro text c hhead hne hsp
    cases text with
    | nil => simp at hhead
    | cons c0 l =>
      simp at hhead
      subst hhead
      unfold parse_quoted_string
      rw [pyStrip_cons_of_head c0 hsp l]
      simp only
      rw [if_neg hne]
  · intro rest hq
    have hstrip : pyStrip ('\"' :: rest)
        = '\"' :: (List.dropWhile pyIsSpace rest.reverse).reverse :=
      pyStrip_cons_of_head '\"' (by decide) rest
    have hqR : '\"' ∉ (List.dropWhile pyIsSpace rest.reverse).reverse := by
      intro hmem
      apply hq
      rw [List.mem_reverse] at hmem
      exact List.mem_reverse.mp ((List.dropWhile_sublist pyIsSpace).subset hmem)
    unfold parse_quoted_string
    rw [hstrip]
    simp only [if_pos]
    have hcq : ∀ y ∈ (List.dropWhile pyIsSpace rest.reverse).reverse,
        (y != '\"') = true := by
      intro y hy
      have hyne : y ≠ '\"' := fun h => hqR (h ▸ hy)
      simpa using hyne
    rw [takeWhile_all _ _ hcq]
    rw [if_neg (by omega)]

/-- Witness for C8 (amended) at concrete inputs. -/
theorem parse_quoted_string_spec_wit :
    parse_quoted_string ('\"' :: "ab".data ++ '\"' :: " x ".data)
      = (some ("ab".data), "x".data)
  ∧ parse_quoted_string ("abc".data) = (none, "abc".data)
  ∧ parse_quoted_string ('\"' :: "ab".data) = (none, '\"' :: "ab".data) := by
  refine ⟨?_, ?_, ?_⟩
  · exact (parse_quoted_string_spec.1 ("ab".data) (" x ".data) (by decide)).trans
      (by decide)
  · exact parse_quoted_string_spec.2.1 ("abc".data) 'a' (by decide) (by decide)
      (by decide)
  · exact parse_quoted_string_spec.2.2 ("ab".data) (by decide)

/-- Counterexample to C8 as stated: the input `' "ab"'` does not begin with a
quote, so the claim requires absence and the original string back; the
extractor instead strips, matches, and slices the original string, returning
content `ab` with the garbled remainder `"`. -/
theorem parse_quoted_string_cex :
    ((' ' :: ('\"' :: "ab".data ++ ['\"'])).head? ≠ some '\"')
  ∧ parse_quoted_string (' ' :: ('\"' :: "ab".data ++ ['\"']))
      ≠ (none, ' ' :: ('\"' :: "ab".data ++ ['\"']))
  ∧ parse_quoted_string (' ' :: ('\"' :: "ab".data ++ ['\"']))
      = (some ("ab".data), ['\"']) := by
  exact ⟨by decide, by decide, by decide⟩

theorem pySplitMax1_nil : pySplitMax1 [] = [] := rfl

theorem processCommand_dispatch (line : Str) (store : List Record) (w : Str)
    (rl : List Str) (h : pySplitMax1 (pyStrip line) = w :: rl) :
    processCommand line store =
      (if w = "ADD".data then processAddCommand (rl.headD []) store
       else if w = "REM".data then some (processRemoveCommand (rl.headD []) store)
       else if w = "PRINT".data then
         (processPrintCommand store).map (fun out => (store, out))
       else some (store, "Unknown command: ".data ++ w ++ ['\n'])) := by
  have hne : pyStrip line ≠ [] := by
    intro h0
    rw [h0, pySplitMax1_nil] at h
    exact List.noConfusion h
  unfold processCommand
  rw [if_neg hne, h]

theorem printLoop_eq (store : List Record)
    (h : ∀ r ∈ store, (renderLine r).isSome = true) (i : Nat) :
    printLoop i store = some
      (((store.enumFrom i).map (fun p =>
        pyStrNat p.1 ++ ". ".data ++ ((renderLine p.2).getD []) ++ ['\n'])).flatten) := by
  induction store generalizing i with
  | nil => rfl
  | cons r rs ih =>
    obtain ⟨line, hline⟩ := Option.isSome_iff_exists.mp (h r (by simp))
    have hrs := ih (fun x hx => h x (by simp [hx])) (i + 1)
    unfold printLoop
    rw [hline, hrs]
    simp [hline]

/-- C6 (amended): PRINT leaves the store unchanged and prints exactly the
`No encrypted texts available` message on an empty store, and otherwise the
header followed by the 1-based-indexed `describe()` rendering of each record
in store order and a trailing blank line — provided each stored record's
rendering (which recomputes `decrypt()`) succeeds. -/
theorem print_command_output (store : List Record)
    (h : ∀ r ∈ store, (renderLine r).isSome = true) :
    processCommand ("PRINT".data) store =
      some (store,
        if store = [] then "No encrypted texts available".data ++ ['\n']
        else '\n' :: "ENCRYPTED TEXTS".data ++ ['\n'] ++
          ((store.enumFrom 1).map (fun p =>
            pyStrNat p.1 ++ ". ".data ++ ((renderLine p.2).getD []) ++ ['\n'])).flatten
          ++ ['\n']) := by
  rw [processCommand_dispatch ("PRINT".data) store ("PRINT".data) [] (by decide)]
  rw [if_neg (by decide), if_neg (by decide), if_pos rfl]
  by_cases hst : store = []
  · subst hst
    decide
  · rw [if_neg hst]
    unfold processPrintCommand
    rw [if_neg hst, printLoop_eq store h 1]
    rfl

/-- Witness for C6 (amended): the empty store and a one-record store. -/
theorem print_command_output_wit :
    processCommand ("PRINT".data) []
      = some ([], "No encrypted texts available".data ++ ['\n'])
  ∧ processCommand ("PRINT".data)
      [mkShiftCipher ("Hi".data) ("bob".data) ("2024".data) 3]
      = some ([mkShiftCipher ("Hi".data) ("bob".data) ("2024".data) 3],
        ("\nENCRYPTED TEXTS\n1. SHIFT: type: ShiftCipher, owner: bob, date: 2024, original: Hi, encrypted: Kl, decrypted: Hi, shift: 3\n\n").data) := by
  constructor
  · exact (print_command_output [] (by simp)).trans (by decide)
  · exact (print_command_output
      [mkShiftCipher ("Hi".data) ("bob".data) ("2024".data) 3] (by decide)).trans
      (by decide)

/-- Counterexample to C6 as stated: the store reached by
`ADD SUBSTITUTION "c" o d "a" "bc"` is non-empty, but PRINT raises an
`IndexError` while recomputing `decrypt()` (the character `c` is in the
target alphabet at position 1 and the source alphabet has length 1), so no
header-plus-records listing is printed — the run aborts instead. -/
theorem print_command_output_cex :
    processCommand (("ADD SUBSTITUTION \"c\" o d \"a\" \"bc\"").data) []
      = some ([⟨"c".data, "o".data, "d".data,
          .substitution ("a".data) ("bc".data), "c".data⟩],
          "Added SUBSTITUTION cipher for owner ".data ++ apos :: "o".data ++ [apos, '\n'])
  ∧ processCommand ("PRINT".data)
      [⟨"c".data, "o".data, "d".data, .substitution ("a".data) ("bc".data), "c".data⟩]
      = none := by
  exact ⟨by decide, by decide⟩

theorem mkSubst_encryptedOK (t o d sa ta : Str) (r : Record)
    (h : mkSubstitutionCipher t o d sa ta = some r) : encryptedOK r := by
  simp only [mkSubstitutionCipher] at h
  split at h
  · rename_i enc henc
    injection h with h1
    subst h1
    exact henc
  · exact Option.noConfusion h

theorem mkShift_encryptedOK (t o d : Str) (v : Int) :
    encryptedOK (mkShiftCipher t o d v) := rfl

theorem processRemove_mem (command : Str) (store : List Record) :
    ∀ r ∈ (processRemoveCommand command store).1, r ∈ store := by
  rcases hp : pySplit command with _ | ⟨f, _ | ⟨o, _ | ⟨v0, vs0⟩⟩⟩
  · unfold processRemoveCommand
    rw [hp, if_pos (by simp)]
    exact fun r hr => hr
  · unfold processRemoveCommand
    rw [hp, if_pos (by simp)]
    exact fun r hr => hr
  · unfold processRemoveCommand
    rw [hp, if_pos (by simp)]
    exact fun r hr => hr
  · rw [processRemoveCommand_parts command store f o (v0 :: vs0) hp (by simp)]
    intro r hr
    repeat' split at hr
    all_goals
      first
      | exact hr
      | exact (List.mem_filter.mp hr).1

theorem addSubst_mem_or (command : Str) (store store' : List Record) (out : Str)
    (h : addSubstitutionCipher command store = some (store', out)) :
    ∀ r ∈ store', r ∈ store ∨ encryptedOK r := by
  simp only [addSubstitutionCipher] at h
  repeat' split at h
  all_goals
    first
    | exact Option.noConfusion h
    | · injection h with h1
        injection h1 with h2 h3
        subst h2
        intro r hr
        exact Or.inl hr
    | · rename_i r0 hmk
        injection h with h1
        injection h1 with h2 h3
        subst h2
        intro r hr
        rcases List.mem_append.mp hr with hl | hl
        · exact Or.inl hl
        · rw [List.mem_singleton.mp hl]
          exact Or.inr (mkSubst_encryptedOK _ _ _ _ _ _ hmk)

theorem addShift_mem_or (command : Str) (store store' : List Record) (out : Str)
    (h : addShiftCipher command store = some (store', out)) :
    ∀ r ∈ store', r ∈ store ∨ encryptedOK r := by
  simp only [addShiftCipher] at h
  repeat' split at h
  all_goals
    first
    | exact Option.noConfusion h
    | · injection h with h1
        injection h1 with h2 h3
        subst h2
        intro r hr
        exact Or.inl hr
    | · injection h with h1
        injection h1 with h2 h3
        subst h2
        intro r hr
        rcases List.mem_append.mp hr with hl | hl
        · exact Or.inl hl
        · rw [List.mem_singleton.mp hl]
          exact Or.inr (mkShift_encryptedOK _ _ _ _)

theorem processAdd_mem_or (command : Str) (store store' : List Record) (out : Str)
    (h : processAddCommand command store = some (store', out)) :
    ∀ r ∈ store', r ∈ store ∨ encryptedOK r := by
  simp only [processAddCommand] at h
  split at h
  · injection h with h1
    injection h1 with h2 h3
    subst h2
    intro r hr
    exact Or.inl hr
  · split at h
    · exact addSubst_mem_or _ _ _ _ h
    · split at h
      · exact addShift_mem_or _ _ _ _ h
      · injection h with h1
        injection h1 with h2 h3
        subst h2
        intro r hr
        exact Or.inl hr

/-- C9: `encrypted_text` is computed eagerly at construction — after
lower-casing the alphabets for the substitution variant — as the image of
`text` under the variant's encode function, and every command (ADD, REM,
PRINT, or any other line) preserves the invariant that each stored record's
`encrypted_text` is that image: records are only ever dropped or freshly
constructed, never mutated. -/
theorem encrypted_text_invariant :
    (∀ (t o d sa ta : Str) (r : Record),
        mkSubstitutionCipher t o d sa ta = some r →
        r.text = t ∧ r.params = .substitution (pyLowerStr sa) (pyLowerStr ta) ∧
        substEncrypt (pyLowerStr sa) (pyLowerStr ta) t = some r.encrypted_text)
  ∧ (∀ (t o d : Str) (v : Int),
        (mkShiftCipher t o d v).params = .shift v ∧
        (mkShiftCipher t o d v).encrypted_text = shiftEncrypt v t)
  ∧ (∀ (line : Str) (store store' : List Record) (out : Str),
        (∀ r ∈ store, encryptedOK r) →
        processCommand line store = some (store', out) →
        ∀ r ∈ store', encryptedOK r) := by
  refine ⟨?_, ?_, ?_⟩
  · intro t o d sa ta r h
    simp only [mkSubstitutionCipher] at h
    split at h
    · rename_i enc henc
      injection h with h1
      subst h1
      exact ⟨rfl, rfl, henc⟩
    · exact Option.noConfusion h
  · intro t o d v
    exact ⟨rfl, rfl⟩
  · intro line store store' out hstore h
    simp only [processCommand] at h
    split at h
    · injection h with h1
      injection h1 with h2 h3
      subst h2
      exact hstore
    · split at h
      · injection h with h1
        injection h1 with h2 h3
        subst h2
        exact hstore
      · split at h
        · intro r hr
          rcases processAdd_mem_or _ _ _ _ h r hr with hl | hok
          · exact hstore r hl
          · exact hok
        · split at h
          · rename_i restL heqx hA hREM
            injection h with h1
            intro r hr
            have h2 : r ∈ (processRemoveCommand (restL.headD []) store).1 := by
              rw [h1]
              exact hr
            exact hstore r (processRemove_mem (restL.headD []) store r h2)
          · split at h
            · rcases Option.map_eq_some'.mp h with ⟨o2, ho2, heq⟩
              injection heq with h2 h3
              subst h2
              exact hstore
            · injection h with h1
              injection h1 with h2 h3
              subst h2
              exact hstore

/-- Witness for C9: the record constructed by an ADD line from the empty
store satisfies the cached-encryption invariant, and the concrete
substitution constructor facts hold. -/
theorem encrypted_text_invariant_wit :
    encryptedOK (mkShiftCipher ("Hi".data) ("bob".data) ("2024".data) 3)
  ∧ ((⟨"Ab".data, "o".data, "d".data,
        .substitution ("ab".data) ("xy".data), "Xy".data⟩ : Record).text = "Ab".data
      ∧ (⟨"Ab".data, "o".data, "d".data,
          .substitution ("ab".data) ("xy".data), "Xy".data⟩ : Record).params
        = .substitution (pyLowerStr ("AB".data)) (pyLowerStr ("XY".data))
      ∧ substEncrypt (pyLowerStr ("AB".data)) (pyLowerStr ("XY".data)) ("Ab".data)
        = some ("Xy".data)) := by
  constructor
  · exact encrypted_text_invariant.2.2
      ("ADD SHIFT \"Hi\" bob 2024 3".data) [] [mkShiftCipher ("Hi".data) ("bob".data) ("2024".data) 3]
      ("Added SHIFT cipher for owner ".data ++ apos :: "bob".data ++ [apos, '\n'])
      (by simp) (by decide)
      (mkShiftCipher ("Hi".data) ("bob".data) ("2024".data) 3) (by simp)
  · exact encrypted_text_invariant.1 ("Ab".data) ("o".data) ("d".data)
      ("AB".data) ("XY".data) _ (by decide)

theorem processAddCommand_nil (command : Str) (store : List Record)
    (h : pySplitMax1 command = []) :
    processAddCommand command store
      = some (store, msgLine ("Invalid ADD command".data)) := by
  unfold processAddCommand
  rw [h]

theorem processAddCommand_dispatch (command : Str) (store : List Record)
    (ct : Str) (rl : List Str) (h : pySplitMax1 command = ct :: rl) :
    processAddCommand command store =
      (if ct = "SUBSTITUTION".data then addSubstitutionCipher (rl.headD []) store
       else if ct = "SHIFT".data then addShiftCipher (rl.headD []) store
       else some (store, "Unknown cipher type: ".data ++ ct ++ ['\n'])) := by
  unfold processAddCommand
  rw [h]

theorem addSubst_err_text (command : Str) (store : List Record)
    (h : (parse_quoted_string command).1 = none) :
    addSubstitutionCipher command store
      = some (store, msgLine ("Invalid text format".data)) := by
  rcases hp : parse_quoted_string command with ⟨t1, rest⟩
  rw [hp] at h
  simp only at h
  subst h
  unfold addSubstitutionCipher
  rw [hp]

theorem addSubst_err_tokens (command : Str) (store : List Record)
    (t rest : Str) (hp : parse_quoted_string command = (some t, rest))
    (hlen : (pySplit rest).length < 4) :
    addSubstitutionCipher command store
      = some (store, msgLine ("Invalid SUBSTITUTION command format".data)) := by
  unfold addSubstitutionCipher
  rw [hp]
  simp only
  rw [if_pos hlen]

theorem addSubst_err_src (command : Str) (store : List Record)
    (t rest : Str) (hp : parse_quoted_string command = (some t, rest))
    (hlen : ¬ (pySplit rest).length < 4)
    (hsrc : (parse_quoted_string (joinSpace ((pySplit rest).drop 2))).1 = none) :
    addSubstitutionCipher command store
      = some (store, msgLine ("Invalid source alphabet format".data)) := by
  rcases hp2 : parse_quoted_string (joinSpace ((pySplit rest).drop 2)) with ⟨s1, r2⟩
  rw [hp2] at hsrc
  simp only at hsrc
  subst hsrc
  unfold addSubstitutionCipher
  rw [hp]
  simp only
  rw [if_neg hlen, hp2]

theorem addSubst_err_tgt (command : Str) (store : List Record)
    (t rest sa r3 : Str) (hp : parse_quoted_string command = (some t, rest))
    (hlen : ¬ (pySplit rest).length < 4)
    (hsrc : parse_quoted_string (joinSpace ((pySplit rest).drop 2)) = (some sa, r3))
    (htgt : (parse_quoted_string r3).1 = none) :
    addSubstitutionCipher command store
      = some (store, msgLine ("Invalid target alphabet format".data)) := by
  rcases hp3 : parse_quoted_string r3 with ⟨t1, r4⟩
  rw [hp3] at htgt
  simp only at htgt
  subst htgt
  unfold addSubstitutionCipher
  rw [hp]
  simp only
  rw [if_neg hlen, hsrc]
  simp only
  rw [hp3]

theorem addShift_err_text (command : Str) (store : List Record)
    (h : (parse_quoted_string command).1 = none) :
    addShiftCipher command store
      = some (store, msgLine ("Invalid text format".data)) := by
  rcases hp : parse_quoted_string command with ⟨t1, rest⟩
  rw [hp] at h
  simp only at h
  subst h
  unfold addShiftCipher
  rw [hp]

theorem addShift_err_tokens (command : Str) (store : List Record)
    (t rest : Str) (hp : parse_quoted_string command = (some t, rest))
    (hlen : (pySplit rest).length < 3) :
    addShiftCipher command store
      = some (store, msgLine ("Invalid SHIFT command format".data)) := by
  unfold addShiftCipher
  rw [hp]
  simp only
  rw [if_pos hlen]

theorem addShift_err_value (command : Str) (store : List Record)
    (t rest : Str) (hp : parse_quoted_string command = (some t, rest))
    (hlen : ¬ (pySplit rest).length < 3)
    (hv : pyInt (((pySplit rest)[2]?).getD []) = none) :
    addShiftCipher command store
      = some (store, msgLine ("Invalid shift value".data)) := by
  unfold addShiftCipher
  rw [hp]
  simp only
  rw [if_neg hlen, hv]

theorem rem_err_tokens (command : Str) (store : List Record)
    (h : (pySplit command).length < 3) :
    processRemoveCommand command store
      = (store, msgLine ("Invalid REM command format".data)) := by
  unfold processRemoveCommand
  rw [if_pos h]

theorem rem_err_length (command : Str) (store : List Record)
    (f o : Str) (vs : List Str) (hp : pySplit command = f :: o :: vs)
    (hvs : vs ≠ []) (hf : f = "length".data)
    (ho : o = ">".data ∨ o = "<".data)
    (hn : pyInt (stripQuotesPair (joinSpace vs)) = none) :
    processRemoveCommand command store
      = (store, msgLine ("Invalid length value".data)) := by
  rw [processRemoveCommand_parts command store f o vs hp hvs]
  subst hf
  rcases ho with ho | ho <;> subst ho
  · rw [if_neg (by decide), if_neg (by decide), if_neg (by decide),
      if_pos ⟨rfl, rfl⟩, hn]
  · rw [if_neg (by decide), if_neg (by decide), if_neg (by decide),
      if_neg (by decide), if_pos ⟨rfl, rfl⟩, hn]

theorem rem_err_unknown (command : Str) (store : List Record)
    (f o : Str) (vs : List Str) (hp : pySplit command = f :: o :: vs)
    (hvs : vs ≠ [])
    (h1 : ¬(f = "owner".data ∧ (o = "==".data ∨ o = "!=".data)))
    (h2 : ¬(f = "date".data ∧ o = "==".data))
    (h3 : ¬(f = "length".data ∧ (o = ">".data ∨ o = "<".data))) :
    processRemoveCommand command store
      = (store, msgLine ("Unknown REM condition: ".data ++ f ++ [' '] ++ o ++
          [' '] ++ stripQuotesPair (joinSpace vs))) := by
  rw [processRemoveCommand_parts command store f o vs hp hvs]
  rw [if_neg (fun hc => h1 ⟨hc.1, Or.inl hc.2⟩),
    if_neg (fun hc => h1 ⟨hc.1, Or.inr hc.2⟩), if_neg h2,
    if_neg (fun hc => h3 ⟨hc.1, Or.inl hc.2⟩),
    if_neg (fun hc => h3 ⟨hc.1, Or.inr hc.2⟩)]

/-- C5: every erroneous command line of the listed kinds — unknown command,
unknown cipher type, missing or malformed quoted segment, insufficient
tokens, non-integer shift or length value, unsupported REM field/operator
combination — produces exactly one diagnostic message, leaves the store
unchanged, and raises no exception (the result is `some`, so processing
continues). -/
theorem erroneous_commands_safe :
    (∀ (line : Str) (store : List Record) (w : Str) (rl : List Str),
        pySplitMax1 (pyStrip line) = w :: rl →
        w ≠ "ADD".data → w ≠ "REM".data → w ≠ "PRINT".data →
        processCommand line store
          = some (store, "Unknown command: ".data ++ w ++ ['\n']))
  ∧ (∀ (line : Str) (store : List Record),
        pySplitMax1 (pyStrip line) = ["ADD".data] →
        processCommand line store
          = some (store, msgLine ("Invalid ADD command".data)))
  ∧ (∀ (line : Str) (store : List Record) (rest ct : Str) (rl : List Str),
        pySplitMax1 (pyStrip line) = ["ADD".data, rest] →
        pySplitMax1 rest = ct :: rl →
        ct ≠ "SUBSTITUTION".data → ct ≠ "SHIFT".data →
        processCommand line store
          = some (store, "Unknown cipher type: ".data ++ ct ++ ['\n']))
  ∧ (∀ (line : Str) (store : List Record) (rest : Str) (rl : List Str),
        pySplitMax1 (pyStrip line) = ["ADD".data, rest] →
        pySplitMax1 rest = "SUBSTITUTION".data :: rl →
        (parse_quoted_string (rl.headD [])).1 = none →
        processCommand line store
          = some (store, msgLine ("Invalid text format".data)))
  ∧ (∀ (line : Str) (store : List Record) (rest t r2 : Str) (rl : List Str),
        pySplitMax1 (pyStrip line) = ["ADD".data, rest] →
        pySplitMax1 rest = "SUBSTITUTION".data :: rl →
        parse_quoted_string (rl.headD []) = (some t, r2) →
        (pySplit r2).length < 4 →
        processCommand line store
          = some (store, msgLine ("Invalid SUBSTITUTION command format".data)))
  ∧ (∀ (line : Str) (store : List Record) (rest t r2 : Str) (rl : List Str),
        pySplitMax1 (pyStrip line) = ["ADD".data, rest] →
        pySplitMax1 rest = "SUBSTITUTION".data :: rl →
        parse_quoted_string (rl.headD []) = (some t, r2) →
        ¬ (pySplit r2).length < 4 →
        (parse_quoted_string (joinSpace ((pySplit r2).drop 2))).1 = none →
        processCommand line store
          = some (store, msgLine ("Invalid source alphabet format".data)))
  ∧ (∀ (line : Str) (store : List Record) (rest t r2 sa r3 : Str) (rl : List Str),
        pySplitMax1 (pyStrip line) = ["ADD".data, rest] →
        pySplitMax1 rest = "SUBSTITUTION".data :: rl →
        parse_quoted_string (rl.headD []) = (some t, r2) →
        ¬ (pySplit r2).length < 4 →
        parse_quoted_string (joinSpace ((pySplit r2).drop 2)) = (some sa, r3) →
        (parse_quoted_string r3).1 = none →
        processCommand line store
          = some (store, msgLine ("Invalid target alphabet format".data)))
  ∧ (∀ (line : Str) (store : List Record) (rest : Str) (rl : List Str),
        pySplitMax1 (pyStrip line) = ["ADD".data, rest] →
        pySplitMax1 rest = "SHIFT".data :: rl →
        (parse_quoted_string (rl.headD [])).1 = none →
        processCommand line store
          = some (store, msgLine ("Invalid text format".data)))
  ∧ (∀ (line : Str) (store : List Record) (rest t r2 : Str) (rl : List Str),
        pySplitMax1 (pyStrip line) = ["ADD".data, rest] →
        pySplitMax1 rest = "SHIFT".data :: rl →
        parse_quoted_string (rl.headD []) = (some t, r2) →
        (pySplit r2).length < 3 →
        processCommand line store
          = some (store, msgLine ("Invalid SHIFT command format".data)))
  ∧ (∀ (line : Str) (store : List Record) (rest t r2 : Str) (rl : List Str),
        pySplitMax1 (pyStrip line) = ["ADD".data, rest] →
        pySplitMax1 rest = "SHIFT".data :: rl →
        parse_quoted_string (rl.headD []) = (some t, r2) →
        ¬ (pySplit r2).length < 3 →
        pyInt (((pySplit r2)[2]?).getD []) = none →
        processCommand line store
          = some (store, msgLine ("Invalid shift value".data)))
  ∧ (∀ (line : Str) (store : List Record) (rl : List Str),
        pySplitMax1 (pyStrip line) = "REM".data :: rl →
        (pySplit (rl.headD [])).length < 3 →
        processCommand line store
          = some (store, msgLine ("Invalid REM command format".data)))
  ∧ (∀ (line : Str) (store : List Record) (f o : Str) (vs rl : List Str),
        pySplitMax1 (pyStrip line) = "REM".data :: rl →
        pySplit (rl.headD []) = f :: o :: vs → vs ≠ [] →
        f = "length".data → (o = ">".data ∨ o = "<".data) →
        pyInt (stripQuotesPair (joinSpace vs)) = none →
        processCommand line store
          = some (store, msgLine ("Invalid length value".data)))
  ∧ (∀ (line : Str) (store : List Record) (f o : Str) (vs rl : List Str),
        pySplitMax1 (pyStrip line) = "REM".data :: rl →
        pySplit (rl.headD []) = f :: o :: vs → vs ≠ [] →
        ¬(f = "owner".data ∧ (o = "==".data ∨ o = "!=".data)) →
        ¬(f = "date".data ∧ o = "==".data) →
        ¬(f = "length".data ∧ (o = ">".data ∨ o = "<".data)) →
        processCommand line store
          = some (store, msgLine ("Unknown REM condition: ".data ++ f ++ [' '] ++
              o ++ [' '] ++ stripQuotesPair (joinSpace vs)))) := by
  refine ⟨?_, ?_, ?_, ?_, ?_, ?_, ?_, ?_, ?_, ?_, ?_, ?_, ?_⟩
  · intro line store w rl h hA hR hP
    rw [processCommand_dispatch line store w rl h, if_neg hA, if_neg hR, if_neg hP]
  · intro line store h
    rw [processCommand_dispatch line store ("ADD".data) [] h, if_pos rfl]
    exact processAddCommand_nil [] store rfl
  · intro line store rest ct rl h h2 hS hH
    rw [processCommand_dispatch line store ("ADD".data) [rest] h, if_pos rfl]
    rw [show ([rest] : List Str).headD [] = rest from rfl]
    rw [processAddCommand_dispatch rest store ct rl h2, if_neg hS, if_neg hH]
  · intro line store rest rl h h2 h3
    rw [processCommand_dispatch line store ("ADD".data) [rest] h, if_pos rfl]
    rw [show ([rest] : List Str).headD [] = rest from rfl]
    rw [processAddCommand_dispatch rest store ("SUBSTITUTION".data) rl h2, if_pos rfl]
    exact addSubst_err_text (rl.headD []) store h3
  · intro line store rest t r2 rl h h2 h3 h4
    rw [processCommand_dispatch line store ("ADD".data) [rest] h, if_pos rfl]
    rw [show ([rest] : List Str).headD [] = rest from rfl]
    rw [processAddCommand_dispatch rest store ("SUBSTITUTION".data) rl h2, if_pos rfl]
    exact addSubst_err_tokens (rl.headD []) store t r2 h3 h4
  · intro line store rest t r2 rl h h2 h3 h4 h5
    rw [processCommand_dispatch line store ("ADD".data) [rest] h, if_pos rfl]
    rw [show ([rest] : List Str).headD [] = rest from rfl]
    rw [processAddCommand_dispatch rest store ("SUBSTITUTION".data) rl h2, if_pos rfl]
    exact addSubst_err_src (rl.headD []) store t r2 h3 h4 h5
  · intro line store rest t r2 sa r3 rl h h2 h3 h4 h5 h6
    rw [processCommand_dispatch line store ("ADD".data) [rest] h, if_pos rfl]
    rw [show ([rest] : List Str).headD [] = rest from rfl]
    rw [processAddCommand_dispatch rest store ("SUBSTITUTION".data) rl h2, if_pos rfl]
    exact addSubst_err_tgt (rl.headD []) store t r2 sa r3 h3 h4 h5 h6
  · intro line store rest rl h h2 h3
    rw [processCommand_dispatch line store ("ADD".data) [rest] h, if_pos rfl]
    rw [show ([rest] : List Str).headD [] = rest from rfl]
    rw [processAddCommand_dispatch rest store ("SHIFT".data) rl h2,
      if_neg (by decide), if_pos rfl]
    exact addShift_err_text (rl.headD []) store h3
  · intro line store rest t r2 rl h h2 h3 h4
    rw [processCommand_dispatch line store ("ADD".data) [rest] h, if_pos rfl]
    rw [show ([rest] : List Str).headD [] = rest from rfl]
    rw [processAddCommand_dispatch rest store ("SHIFT".data) rl h2,
      if_neg (by decide), if_pos rfl]
    exact addShift_err_tokens (rl.headD []) store t r2 h3 h4
  · intro line store rest t r2 rl h h2 h3 h4 h5
    rw [processCommand_dispatch line store ("ADD".data) [rest] h, if_pos rfl]
    rw [show ([rest] : List Str).headD [] = rest from rfl]
    rw [processAddCommand_dispatch rest store ("SHIFT".data) rl h2,
      if_neg (by decide), if_pos rfl]
    exact addShift_err_value (rl.headD []) store t r2 h3 h4 h5
  · intro line store rl h h2
    rw [processCommand_dispatch line store ("REM".data) rl h,
      if_neg (by decide), if_pos rfl]
    rw [rem_err_tokens (rl.headD []) store h2]
  · intro line store f o vs rl h h2 hvs hf ho hn
    rw [processCommand_dispatch line store ("REM".data) rl h,
      if_neg (by decide), if_pos rfl]
    rw [rem_err_length (rl.headD []) store f o vs h2 hvs hf ho hn]
  · intro line store f o vs rl h h2 hvs h3 h4 h5
    rw [processCommand_dispatch line store ("REM".data) rl h,
      if_neg (by decide), if_pos rfl]
    rw [rem_err_unknown (rl.headD []) store f o vs h2 hvs h3 h4 h5]

/-- A one-record store used to witness that erroneous commands leave a
non-empty store untouched. -/
def witStore : List Record := [mkShiftCipher ("x".data) ("A".data) ("d".data) 1]

/-- Witness for C5: one concrete line of each error kind, against a one-record
store. -/
theorem erroneous_commands_safe_wit :
    processCommand ("FOO bar".data) witStore
      = some (witStore, "Unknown command: ".data ++ "FOO".data ++ ['\n'])
  ∧ processCommand ("ADD".data) witStore
      = some (witStore, msgLine ("Invalid ADD command".data))
  ∧ processCommand ("ADD CAESAR x".data) witStore
      = some (witStore, "Unknown cipher type: ".data ++ "CAESAR".data ++ ['\n'])
  ∧ processCommand ("ADD SUBSTITUTION notext".data) witStore
      = some (witStore, msgLine ("Invalid text format".data))
  ∧ processCommand (("ADD SUBSTITUTION \"t\" o").data) witStore
      = some (witStore, msgLine ("Invalid SUBSTITUTION command format".data))
  ∧ processCommand (("ADD SUBSTITUTION \"t\" o d x y").data) witStore
      = some (witStore, msgLine ("Invalid source alphabet format".data))
  ∧ processCommand (("ADD SUBSTITUTION \"t\" o d \"ab\" nope").data) witStore
      = some (witStore, msgLine ("Invalid target alphabet format".data))
  ∧ processCommand ("ADD SHIFT notext".data) witStore
      = some (witStore, msgLine ("Invalid text format".data))
  ∧ processCommand (("ADD SHIFT \"t\" o").data) witStore
      = some (witStore, msgLine ("Invalid SHIFT command format".data))
  ∧ processCommand (("ADD SHIFT \"t\" o d xx").data) witStore
      = some (witStore, msgLine ("Invalid shift value".data))
  ∧ processCommand ("REM owner ==".data) witStore
      = some (witStore, msgLine ("Invalid REM command format".data))
  ∧ processCommand ("REM length > foo".data) witStore
      = some (witStore, msgLine ("Invalid length value".data))
  ∧ processCommand ("REM date != x".data) witStore
      = some (witStore, msgLine ("Unknown REM condition: ".data ++ "date".data ++
          [' '] ++ "!=".data ++ [' '] ++ stripQuotesPair (joinSpace ["x".data]))) := by
  refine ⟨?_, ?_, ?_, ?_, ?_, ?_, ?_, ?_, ?_, ?_, ?_, ?_, ?_⟩
  · exact erroneous_commands_safe.1 ("FOO bar".data) witStore ("FOO".data)
      ["bar".data] (by decide) (by decide) (by decide) (by decide)
  · exact erroneous_commands_safe.2.1 ("ADD".data) witStore (by decide)
  · exact erroneous_commands_safe.2.2.1 ("ADD CAESAR x".data) witStore
      ("CAESAR x".data) ("CAESAR".data) ["x".data] (by decide) (by decide)
      (by decide) (by decide)
  · exact erroneous_commands_safe.2.2.2.1 ("ADD SUBSTITUTION notext".data)
      witStore ("SUBSTITUTION notext".data) ["notext".data] (by decide)
      (by decide) (by decide)
  · exact erroneous_commands_safe.2.2.2.2.1 (("ADD SUBSTITUTION \"t\" o").data)
      witStore (("SUBSTITUTION \"t\" o").data) ("t".data) ("o".data)
      [("\"t\" o").data] (by decide) (by decide) (by decide) (by decide)
  · exact erroneous_commands_safe.2.2.2.2.2.1
      (("ADD SUBSTITUTION \"t\" o d x y").data) witStore
      (("SUBSTITUTION \"t\" o d x y").data) ("t".data) ("o d x y".data)
      [("\"t\" o d x y").data] (by decide) (by decide) (by decide) (by decide)
      (by decide)
  · exact erroneous_commands_safe.2.2.2.2.2.2.1
      (("ADD SUBSTITUTION \"t\" o d \"ab\" nope").data) witStore
      (("SUBSTITUTION \"t\" o d \"ab\" nope").data) ("t".data)
      (("o d \"ab\" nope").data) ("ab".data) ("nope".data)
      [("\"t\" o d \"ab\" nope").data] (by decide) (by decide) (by decide)
      (by decide) (by decide) (by decide)
  · exact erroneous_commands_safe.2.2.2.2.2.2.2.1 ("ADD SHIFT notext".data)
      witStore ("SHIFT notext".data) ["notext".data] (by decide) (by decide)
      (by decide)
  · exact erroneous_commands_safe.2.2.2.2.2.2.2.2.1 (("ADD SHIFT \"t\" o").data)
      witStore (("SHIFT \"t\" o").data) ("t".data) ("o".data) [("\"t\" o").data]
      (by decide) (by decide) (by decide) (by decide)
  · exact erroneous_commands_safe.2.2.2.2.2.2.2.2.2.1
      (("ADD SHIFT \"t\" o d xx").data) witStore (("SHIFT \"t\" o d xx").data)
      ("t".data) ("o d xx".data) [("\"t\" o d xx").data] (by decide) (by decide)
      (by decide) (by decide) (by decide)
  · exact erroneous_commands_safe.2.2.2.2.2.2.2.2.2.2.1 ("REM owner ==".data)
      witStore ["owner ==".data] (by decide) (by decide)
  · exact erroneous_commands_safe.2.2.2.2.2.2.2.2.2.2.2.1
      ("REM length > foo".data) witStore ("length".data) (">".data)
      ["foo".data] ["length > foo".data] (by decide) (by decide) (by decide)
      (by decide) (by decide) (by decide)
  · exact erroneous_commands_safe.2.2.2.2.2.2.2.2.2.2.2.2
      ("REM date != x".data) witStore ("date".data) ("!=".data)
      ["x".data] ["date != x".data] (by decide) (by decide) (by decide)
      (by decide) (by decide) (by decide)
